import Mathlib

/-!
Verification of the hybrid inference orchestration engine
(modules/attention_orchestrator.py, modules/attention_layer.py).

The Python code is embedded shallowly:

* Python dicts (insertion-ordered) become association lists
  `List (String × α)`: updating an existing key keeps its position,
  inserting a new key appends at the end, deleting filters it out.
* `torch` tensors and floats become functions into `ℚ`; the real
  exponential used by `softmax` is an abstract strictly positive
  parameter.
* Code that can raise becomes `Except String`; the outcome of the two
  fallible collaborators (the local model body and the remote OpenAI
  client) is passed in as an explicit oracle.
* The cache write at the orchestrator call site (`putAttentionResult`)
  keeps the `AttributeError` that `put` raises when handed an
  `AttentionResult` value, which has no `clone` attribute; only the
  tensor-value contract of `AttentionCache.put` treats the
  `clone().detach()` copy as value-preserving.
* `hashlib.md5(...).hexdigest()` is implemented bit-for-bit over `Nat`.
-/

/-- Lookup in an insertion-ordered association list, as Python dict
indexing: first (and for well-formed dicts only) binding wins. -/
def dictGet? {α : Type} : List (String × α) → String → Option α
  | [], _ => none
  | p :: d, k => if p.1 = k then some p.2 else dictGet? d k

/-- Update in an insertion-ordered association list, as Python
`d[k] = v`: an existing key keeps its position, a new key is appended. -/
def dictSet {α : Type} : List (String × α) → String → α → List (String × α)
  | [], k, v => [(k, v)]
  | p :: d, k, v => if p.1 = k then (k, v) :: d else p :: dictSet d k v

/-- Deletion from an association list, as Python `del d[k]`. -/
def dictDel {α : Type} : List (String × α) → String → List (String × α)
  | [], _ => []
  | p :: d, k => if p.1 = k then dictDel d k else p :: dictDel d k

/-- The effect of `dictSet` on the key sequence of a dict. -/
def setKey : List String → String → List String
  | [], k => [k]
  | x :: l, k => if x = k then k :: l else x :: setKey l k

/-- The effect of `dictDel` on the key sequence of a dict. -/
def delKey : List String → String → List String
  | [], _ => []
  | x :: l, k => if x = k then delKey l k else x :: delKey l k

/-- Python `min(ks, key=f)` accumulator: replaces the current minimum
only on a strictly smaller value, so the first minimum wins ties. -/
def pyFoldlMin (f : String → Nat) (m : String) (ks : List String) : String :=
  ks.foldl (fun a k => if f k < f a then k else a) m

/-- Python `min(ks, key=f)`; `none` models the `ValueError` raised on an
empty sequence. -/
def pyMinBy (l : List String) (f : String → Nat) : Option String :=
  match l with
  | [] => none
  | k :: ks => some (pyFoldlMin f k ks)

/-- The `AttentionCache` of attention_layer.py: a bounded dict `cache` plus a
parallel dict of access counters, both insertion-ordered. -/
structure AttentionCache (α : Type) where
  cache : List (String × α)
  max_size : Nat
  access_count : List (String × Nat)
deriving Repr, DecidableEq

/-- The access counter a key currently has, as read by the eviction code
`self.access_count.get(k)` (every key passed in is present, `0` is an
out-of-dict default that is never hit on well-formed states). -/
def countOf (counts : List (String × Nat)) (k : String) : Nat :=
  (dictGet? counts k).getD 0

/-- Operation `AttentionCache.get`: on a hit, bump the access counter
(`self.access_count[key] = self.access_count.get(key, 0) + 1`) and
return the cached value; on a miss return `None` and leave the cache
untouched. -/
def AttentionCache.get {α : Type} (c : AttentionCache α) (key : String) :
    Option α × AttentionCache α :=
  match dictGet? c.cache key with
  | some v =>
      (some v,
        { c with access_count := dictSet c.access_count key (countOf c.access_count key + 1) })
  | none => (none, c)

/-- Operation `AttentionCache.put` at the contract the class was written
for — tensor values, where `value.clone().detach()` is a
value-preserving defensive copy: when
`len(self.cache) >= self.max_size`, first evict
`min(self.access_count.keys(), key=self.access_count.get)` from both
dicts, then store the value and reset its counter to 1.  The `.error`
branch is the Python `ValueError` from `min` on an empty sequence.
This model is NOT faithful for non-tensor values: at the orchestrator
call site the value is an `AttentionResult`, which has no `clone`
attribute, so the real `put` raises there — see `putAttentionResult`
below. -/
def AttentionCache.put {α : Type} (c : AttentionCache α) (key : String) (value : α) :
    Except String (AttentionCache α) :=
  if c.max_size ≤ c.cache.length then
    match pyMinBy (c.access_count.map Prod.fst) (fun k => countOf c.access_count k) with
    | none => .error "ValueError: min() arg is an empty sequence"
    | some lru =>
        .ok { c with
          cache := dictSet (dictDel c.cache lru) key value,
          access_count := dictSet (dictDel c.access_count lru) key 1 }
  else
    .ok { c with
      cache := dictSet c.cache key value,
      access_count := dictSet c.access_count key 1 }

/-- Operation `AttentionCache.clear`. -/
def AttentionCache.clear {α : Type} (c : AttentionCache α) : AttentionCache α :=
  { c with cache := [], access_count := [] }

/-- Well-formedness every state reachable from a freshly built
`AttentionCache()` enjoys: the two dicts hold exactly the same keys in
the same insertion order, and (as for every Python dict) keys are not
duplicated. -/
def AttentionCache.WF {α : Type} (c : AttentionCache α) : Prop :=
  c.cache.map Prod.fst = c.access_count.map Prod.fst ∧
    (c.cache.map Prod.fst).Nodup

instance {α : Type} (c : AttentionCache α) : Decidable c.WF := by
  unfold AttentionCache.WF; infer_instance

/- ### MD5 (hashlib.md5(...).hexdigest()) over `Nat` -/

/-- UTF-8 encoding of one character, byte values as `Nat`
(Python `str.encode()`). -/
def utf8EncodeCharNat (c : Char) : List Nat :=
  let n := c.toNat
  if n < 128 then [n]
  else if n < 2048 then [192 + n / 64, 128 + n % 64]
  else if n < 65536 then [224 + n / 4096, 128 + (n / 64) % 64, 128 + n % 64]
  else [240 + n / 262144, 128 + (n / 4096) % 64, 128 + (n / 64) % 64, 128 + n % 64]

/-- UTF-8 bytes of a string. -/
def utf8Bytes (s : String) : List Nat :=
  s.data.flatMap utf8EncodeCharNat

/-- Left rotation of a 32-bit value, for arguments below `2 ^ 32`. -/
def rotl32 (x s : Nat) : Nat :=
  ((x <<< s) % 2 ^ 32) + (x >>> (32 - s))

/-- The 64 MD5 sine-derived constants. -/
def md5K : List Nat :=
  [0xd76aa478, 0xe8c7b756, 0x242070db, 0xc1bdceee,
   0xf57c0faf, 0x4787c62a, 0xa8304613, 0xfd469501,
   0x698098d8, 0x8b44f7af, 0xffff5bb1, 0x895cd7be,
   0x6b901122, 0xfd987193, 0xa679438e, 0x49b40821,
   0xf61e2562, 0xc040b340, 0x265e5a51, 0xe9b6c7aa,
   0xd62f105d, 0x02441453, 0xd8a1e681, 0xe7d3fbc8,
   0x21e1cde6, 0xc33707d6, 0xf4d50d87, 0x455a14ed,
   0xa9e3e905, 0xfcefa3f8, 0x676f02d9, 0x8d2a4c8a,
   0xfffa3942, 0x8771f681, 0x6d9d6122, 0xfde5380c,
   0xa4beea44, 0x4bdecfa9, 0xf6bb4b60, 0xbebfbc70,
   0x289b7ec6, 0xeaa127fa, 0xd4ef3085, 0x04881d05,
   0xd9d4d039, 0xe6db99e5, 0x1fa27cf8, 0xc4ac5665,
   0xf4292244, 0x432aff97, 0xab9423a7, 0xfc93a039,
   0x655b59c3, 0x8f0ccc92, 0xffeff47d, 0x85845dd1,
   0x6fa87e4f, 0xfe2ce6e0, 0xa3014314, 0x4e0811a1,
   0xf7537e82, 0xbd3af235, 0x2ad7d2bb, 0xeb86d391]

/-- The 64 MD5 per-round rotation amounts. -/
def md5S : List Nat :=
  [7, 12, 17, 22, 7, 12, 17, 22, 7, 12, 17, 22, 7, 12, 17, 22,
   5, 9, 14, 20, 5, 9, 14, 20, 5, 9, 14, 20, 5, 9, 14, 20,
   4, 11, 16, 23, 4, 11, 16, 23, 4, 11, 16, 23, 4, 11, 16, 23,
   6, 10, 15, 21, 6, 10, 15, 21, 6, 10, 15, 21, 6, 10, 15, 21]

/-- MD5 padding: append `0x80`, zero-fill to 56 mod 64, then the
original bit length as 8 little-endian bytes. -/
def md5Pad (msg : List Nat) : List Nat :=
  let len := msg.length
  let zeros := (56 + 64 - (len + 1) % 64) % 64
  msg ++ [128] ++ List.replicate zeros 0 ++
    ((List.range 8).map fun i => (len * 8) >>> (8 * i) % 2 ^ 64 % 256)

/-- Little-endian 32-bit word `j` of a byte list. -/
def leWord (bytes : List Nat) (j : Nat) : Nat :=
  bytes.getD (4 * j) 0 + bytes.getD (4 * j + 1) 0 * 256 +
    bytes.getD (4 * j + 2) 0 * 65536 + bytes.getD (4 * j + 3) 0 * 16777216

/-- One MD5 round `i` acting on the working state, with `M` the block's
word accessor. -/
def md5Round (M : Nat → Nat) (st : Nat × Nat × Nat × Nat) (i : Nat) :
    Nat × Nat × Nat × Nat :=
  let A := st.1
  let B := st.2.1
  let C := st.2.2.1
  let D := st.2.2.2
  let Fg : Nat × Nat :=
    if i < 16 then ((B &&& C) ||| ((B ^^^ 0xffffffff) &&& D), i)
    else if i < 32 then ((D &&& B) ||| ((D ^^^ 0xffffffff) &&& C), (5 * i + 1) % 16)
    else if i < 48 then (B ^^^ C ^^^ D, (3 * i + 5) % 16)
    else (C ^^^ (B ||| (D ^^^ 0xffffffff)), (7 * i) % 16)
  let F2 := (Fg.1 + A + md5K.getD i 0 + M Fg.2) % 2 ^ 32
  (D, (B + rotl32 F2 (md5S.getD i 0)) % 2 ^ 32, B, C)

/-- Process one 64-byte block into the running digest state. -/
def md5ProcessBlock (h : Nat × Nat × Nat × Nat) (M : Nat → Nat) :
    Nat × Nat × Nat × Nat :=
  let s := (List.range 64).foldl (md5Round M) h
  ((h.1 + s.1) % 2 ^ 32, (h.2.1 + s.2.1) % 2 ^ 32,
   (h.2.2.1 + s.2.2.1) % 2 ^ 32, (h.2.2.2 + s.2.2.2) % 2 ^ 32)

/-- Run MD5 over an already padded byte list. -/
def md5Blocks (bytes : List Nat) : Nat × Nat × Nat × Nat :=
  (List.range (bytes.length / 64)).foldl
    (fun h i => md5ProcessBlock h (fun j => leWord (bytes.drop (64 * i)) j))
    (0x67452301, 0xefcdab89, 0x98badcfe, 0x10325476)

/-- One lowercase hex digit. -/
def hexChar (n : Nat) : Char :=
  if n < 10 then Char.ofNat (48 + n) else Char.ofNat (87 + n)

/-- Two lowercase hex digits of a byte. -/
def byteToHex (b : Nat) : String :=
  String.mk [hexChar (b / 16 % 16), hexChar (b % 16)]

/-- Little-endian hex rendering of one 32-bit digest word. -/
def wordLEHex (w : Nat) : String :=
  byteToHex (w % 256) ++ byteToHex (w / 256 % 256) ++
    byteToHex (w / 65536 % 256) ++ byteToHex (w / 16777216 % 256)

/-- Python `hashlib.md5(s.encode()).hexdigest()`. -/
def md5hex (s : String) : String :=
  let d := md5Blocks (md5Pad (utf8Bytes s))
  wordLEHex d.1 ++ wordLEHex d.2.1 ++ wordLEHex d.2.2.1 ++ wordLEHex d.2.2.2

/- ### Association-list lemmas -/

theorem dictGet?_dictSet_self {α : Type} (d : List (String × α)) (k : String) (v : α) :
    dictGet? (dictSet d k v) k = some v := by
  induction d with
  | nil => simp [dictSet, dictGet?]
  | cons p d ih =>
    by_cases h : p.1 = k
    · simp [dictSet, h, dictGet?]
    · simp [dictSet, h, dictGet?, ih]

theorem dictGet?_dictSet_ne {α : Type} (d : List (String × α)) (k k' : String) (v : α)
    (h : k' ≠ k) : dictGet? (dictSet d k v) k' = dictGet? d k' := by
  have hk : ¬ (k = k') := fun he => h he.symm
  induction d with
  | nil => simp [dictSet, dictGet?, hk]
  | cons p d ih =>
    by_cases hp : p.1 = k
    · have hp' : ¬ (p.1 = k') := fun he => h (he.symm.trans hp)
      simp [dictSet, hp, dictGet?, hk, hp']
    · by_cases hq : p.1 = k'
      · simp [dictSet, hp, dictGet?, hq, h, ih]
      · simp [dictSet, hp, dictGet?, hq, ih]

theorem dictGet?_dictDel_self {α : Type} (d : List (String × α)) (k : String) :
    dictGet? (dictDel d k) k = none := by
  induction d with
  | nil => simp [dictDel, dictGet?]
  | cons p d ih =>
    by_cases h : p.1 = k
    · simp [dictDel, h, ih]
    · simp [dictDel, h, dictGet?, ih]

theorem dictGet?_dictDel_ne {α : Type} (d : List (String × α)) (k k' : String)
    (h : k' ≠ k) : dictGet? (dictDel d k) k' = dictGet? d k' := by
  have hk : ¬ (k = k') := fun he => h he.symm
  induction d with
  | nil => simp [dictDel]
  | cons p d ih =>
    by_cases hp : p.1 = k
    · have hp' : ¬ (p.1 = k') := fun he => h (he.symm.trans hp)
      simp [dictDel, hp, dictGet?, hk, hp', ih]
    · simp [dictDel, hp, dictGet?, ih]

theorem keys_dictSet {α : Type} (d : List (String × α)) (k : String) (v : α) :
    (dictSet d k v).map Prod.fst = setKey (d.map Prod.fst) k := by
  induction d with
  | nil => simp [dictSet, setKey]
  | cons p d ih =>
    by_cases h : p.1 = k
    · simp [dictSet, h, setKey]
    · simp [dictSet, h, setKey, ih]

theorem keys_dictDel {α : Type} (d : List (String × α)) (k : String) :
    (dictDel d k).map Prod.fst = delKey (d.map Prod.fst) k := by
  induction d with
  | nil => simp [dictDel, delKey]
  | cons p d ih =>
    by_cases h : p.1 = k
    · simp [dictDel, h, delKey, ih]
    · simp [dictDel, h, delKey, ih]

theorem length_dictSet_le {α : Type} (d : List (String × α)) (k : String) (v : α) :
    (dictSet d k v).length ≤ d.length + 1 := by
  induction d with
  | nil => simp [dictSet]
  | cons p d ih =>
    by_cases h : p.1 = k
    · simp [dictSet, h]
    · simpa [dictSet, h] using Nat.succ_le_succ ih

theorem length_dictDel_le {α : Type} (d : List (String × α)) (k : String) :
    (dictDel d k).length ≤ d.length := by
  induction d with
  | nil => simp [dictDel]
  | cons p d ih =>
    by_cases hp : p.1 = k
    · simp [dictDel, hp]
      omega
    · simpa [dictDel, hp] using Nat.succ_le_succ ih

theorem length_dictDel_lt {α : Type} (d : List (String × α)) (k : String)
    (h : k ∈ d.map Prod.fst) : (dictDel d k).length < d.length := by
  induction d with
  | nil => simp at h
  | cons p d ih =>
    have h' : k = p.1 ∨ k ∈ d.map Prod.fst := by simpa using h
    by_cases hp : p.1 = k
    · have := length_dictDel_le d k
      simp [dictDel, hp]
      omega
    · rcases h' with he | hmem
      · exact absurd he.symm hp
      · have := ih hmem
        simp [dictDel, hp]
        omega

theorem setKey_of_mem {l : List String} {k : String} (h : k ∈ l) : setKey l k = l := by
  induction l with
  | nil => simp at h
  | cons x l ih =>
    by_cases hx : x = k
    · simp [setKey, hx]
    · rcases List.mem_cons.mp h with rfl | h'
      · exact absurd rfl hx
      · simp [setKey, hx, ih h']

theorem setKey_of_not_mem {l : List String} {k : String} (h : k ∉ l) :
    setKey l k = l ++ [k] := by
  induction l with
  | nil => simp [setKey]
  | cons x l ih =>
    have hx : x ≠ k := fun hxe => h (hxe ▸ List.mem_cons_self x l)
    have h' : k ∉ l := fun hm => h (List.mem_cons_of_mem x hm)
    simp [setKey, hx, ih h']

theorem delKey_sublist (l : List String) (k : String) :
    List.Sublist (delKey l k) l := by
  induction l with
  | nil => simp [delKey]
  | cons x l ih =>
    by_cases hx : x = k
    · rw [show delKey (x :: l) k = delKey l k by simp [delKey, hx]]
      exact ih.cons x
    · rw [show delKey (x :: l) k = x :: delKey l k by simp [delKey, hx]]
      exact ih.cons₂ x

theorem mem_delKey {l : List String} {k x : String} :
    x ∈ delKey l k ↔ x ∈ l ∧ x ≠ k := by
  induction l with
  | nil => simp [delKey]
  | cons y l ih =>
    by_cases hy : y = k
    · rw [show delKey (y :: l) k = delKey l k by simp [delKey, hy], ih]
      simp only [List.mem_cons]
      constructor
      · rintro ⟨hm, hne⟩
        exact ⟨Or.inr hm, hne⟩
      · rintro ⟨rfl | hm, hne⟩
        · exact absurd hy hne
        · exact ⟨hm, hne⟩
    · rw [show delKey (y :: l) k = y :: delKey l k by simp [delKey, hy]]
      simp only [List.mem_cons, ih]
      constructor
      · rintro (rfl | ⟨hm, hne⟩)
        · exact ⟨Or.inl rfl, hy⟩
        · exact ⟨Or.inr hm, hne⟩
      · rintro ⟨rfl | hm, hne⟩
        · exact Or.inl rfl
        · exact Or.inr ⟨hm, hne⟩

theorem nodup_setKey {l : List String} {k : String} (h : l.Nodup) :
    (setKey l k).Nodup := by
  by_cases hm : k ∈ l
  · rw [setKey_of_mem hm]
    exact h
  · rw [setKey_of_not_mem hm]
    refine List.Nodup.append h (List.nodup_singleton k) ?_
    intro a ha hb
    rcases List.mem_singleton.mp hb with rfl
    exact hm ha

theorem nodup_delKey {l : List String} (k : String) (h : l.Nodup) :
    (delKey l k).Nodup :=
  (delKey_sublist l k).nodup h

theorem mem_setKey_self (l : List String) (k : String) : k ∈ setKey l k := by
  by_cases hm : k ∈ l
  · rw [setKey_of_mem hm]
    exact hm
  · rw [setKey_of_not_mem hm]
    simp

/- ### Python `min` characterization -/

theorem pyFoldlMin_spec (f : String → Nat) (ks : List String) : ∀ m : String,
    (f (pyFoldlMin f m ks) ≤ f m ∧ ∀ k ∈ ks, f (pyFoldlMin f m ks) ≤ f k) ∧
      (pyFoldlMin f m ks = m ∨
        ∃ pre suf, ks = pre ++ pyFoldlMin f m ks :: suf ∧
          f (pyFoldlMin f m ks) < f m ∧
          ∀ x ∈ pre, f (pyFoldlMin f m ks) < f x) := by
  induction ks with
  | nil =>
    intro m
    exact ⟨⟨le_refl _, by simp⟩, Or.inl rfl⟩
  | cons k ks ih =>
    intro m
    have hstep : pyFoldlMin f m (k :: ks) = pyFoldlMin f (if f k < f m then k else m) ks := by
      simp [pyFoldlMin, List.foldl_cons]
    by_cases hk : f k < f m
    · rw [hstep, if_pos hk]
      rcases ih k with ⟨⟨hle, hall⟩, hfirst⟩
      refine ⟨⟨le_of_lt (lt_of_le_of_lt hle hk), ?_⟩, ?_⟩
      · intro x hx
        rcases List.mem_cons.mp hx with rfl | hx'
        · exact hle
        · exact hall x hx'
      · rcases hfirst with heq | ⟨pre, suf, hdec, hlt, hpre⟩
        · refine Or.inr ⟨[], ks, ?_, ?_, by simp⟩
          · rw [heq]
            simp
          · rw [heq]
            exact hk
        · refine Or.inr ⟨k :: pre, suf, ?_, lt_trans hlt hk, ?_⟩
          · rw [List.cons_append, ← hdec]
          · intro x hx
            rcases List.mem_cons.mp hx with rfl | hx'
            · exact hlt
            · exact hpre x hx'
    · rw [hstep, if_neg hk]
      rcases ih m with ⟨⟨hle, hall⟩, hfirst⟩
      have hmk : f m ≤ f k := le_of_not_lt hk
      refine ⟨⟨hle, ?_⟩, ?_⟩
      · intro x hx
        rcases List.mem_cons.mp hx with rfl | hx'
        · exact le_trans hle hmk
        · exact hall x hx'
      · rcases hfirst with heq | ⟨pre, suf, hdec, hlt, hpre⟩
        · exact Or.inl heq
        · refine Or.inr ⟨k :: pre, suf, ?_, hlt, ?_⟩
          · rw [List.cons_append, ← hdec]
          · intro x hx
            rcases List.mem_cons.mp hx with rfl | hx'
            · exact lt_of_lt_of_le hlt hmk
            · exact hpre x hx'

/-- Python `min(l, key=f)` on a nonempty list: it returns an element of
`l` with minimal `f`, namely the first such element in iteration
order. -/
theorem pyMinBy_spec (f : String → Nat) (l : List String) (hl : l ≠ []) :
    ∃ e, pyMinBy l f = some e ∧ (∀ k ∈ l, f e ≤ f k) ∧
      ∃ pre suf, l = pre ++ e :: suf ∧ ∀ x ∈ pre, f e < f x := by
  match l, hl with
  | k :: ks, _ =>
    rcases pyFoldlMin_spec f ks k with ⟨⟨hle, hall⟩, hfirst⟩
    refine ⟨pyFoldlMin f k ks, rfl, ?_, ?_⟩
    · intro x hx
      rcases List.mem_cons.mp hx with rfl | hx'
      · exact hle
      · exact hall x hx'
    · rcases hfirst with heq | ⟨pre, suf, hdec, hlt, hpre⟩
      · refine ⟨[], ks, ?_, by simp⟩
        rw [heq]
        simp
      · refine ⟨k :: pre, suf, ?_, ?_⟩
        · rw [List.cons_append, ← hdec]
        · intro x hx
          rcases List.mem_cons.mp hx with rfl | hx'
          · exact hlt
          · exact hpre x hx'

theorem pyMinBy_isSome (f : String → Nat) (l : List String) (hl : l ≠ []) :
    ∃ e, pyMinBy l f = some e := by
  rcases pyMinBy_spec f l hl with ⟨e, he, _⟩
  exact ⟨e, he⟩

/- ### Cache operation specifications -/

theorem mem_keys_of_dictGet? {α : Type} {d : List (String × α)} {k : String} {v : α}
    (h : dictGet? d k = some v) : k ∈ d.map Prod.fst := by
  induction d with
  | nil => simp [dictGet?] at h
  | cons p d ih =>
    by_cases hp : p.1 = k
    · simp [hp]
    · simp only [dictGet?, if_neg hp] at h
      simp [ih h]

theorem AttentionCache.get_hit {α : Type} (c : AttentionCache α) (key : String) (v : α)
    (h : dictGet? c.cache key = some v) :
    c.get key = (some v,
      { c with access_count := dictSet c.access_count key (countOf c.access_count key + 1) }) := by
  simp [AttentionCache.get, h]

theorem AttentionCache.get_miss {α : Type} (c : AttentionCache α) (key : String)
    (h : dictGet? c.cache key = none) : c.get key = (none, c) := by
  simp [AttentionCache.get, h]

theorem AttentionCache.get_WF {α : Type} (c : AttentionCache α) (key : String)
    (hwf : c.WF) : ((c.get key).2).WF ∧ ((c.get key).2).cache = c.cache ∧
      ((c.get key).2).max_size = c.max_size := by
  rcases hget : dictGet? c.cache key with _ | v
  · rw [c.get_miss key hget]
    exact ⟨hwf, rfl, rfl⟩
  · rw [c.get_hit key v hget]
    have hmem : key ∈ c.access_count.map Prod.fst :=
      hwf.1 ▸ mem_keys_of_dictGet? hget
    refine ⟨⟨?_, hwf.2⟩, rfl, rfl⟩
    simp only [keys_dictSet, setKey_of_mem hmem]
    exact hwf.1

/-- Strong specification of `put` on a well-formed cache with positive
capacity: it cannot raise, preserves well-formedness and capacity, maps
the stored key to the stored value, and every other retrievable entry
was already retrievable before. -/
theorem AttentionCache.put_spec {α : Type} (c : AttentionCache α) (key : String) (v : α)
    (hwf : c.WF) (hpos : 0 < c.max_size) :
    ∃ c', c.put key v = .ok c' ∧
      c'.max_size = c.max_size ∧ c'.WF ∧
      dictGet? c'.cache key = some v ∧
      ∀ k w, k ≠ key → dictGet? c'.cache k = some w → dictGet? c.cache k = some w := by
  by_cases hcap : c.max_size ≤ c.cache.length
  · have hne : c.cache ≠ [] := by
      intro he
      rw [he] at hcap
      simp at hcap
      omega
    have hkeys : c.access_count.map Prod.fst ≠ [] := by
      rw [← hwf.1]
      simpa using hne
    rcases pyMinBy_isSome (fun k => countOf c.access_count k) _ hkeys with ⟨lru, hmin⟩
    refine ⟨{ c with cache := dictSet (dictDel c.cache lru) key v,
                     access_count := dictSet (dictDel c.access_count lru) key 1 },
            ?_, rfl, ?_, ?_, ?_⟩
    · unfold AttentionCache.put
      rw [if_pos hcap, hmin]
    · constructor
      · simp only [keys_dictSet, keys_dictDel, hwf.1]
      · simp only [keys_dictSet]
        exact nodup_setKey (keys_dictDel c.cache lru ▸ nodup_delKey lru hwf.2)
    · exact dictGet?_dictSet_self _ _ _
    · intro k w hk hw
      rw [dictGet?_dictSet_ne _ key k v hk] at hw
      by_cases hkl : k = lru
      · rw [hkl, dictGet?_dictDel_self] at hw
        exact absurd hw (by simp)
      · rwa [dictGet?_dictDel_ne _ lru k hkl] at hw
  · refine ⟨{ c with cache := dictSet c.cache key v,
                     access_count := dictSet c.access_count key 1 },
            ?_, rfl, ?_, ?_, ?_⟩
    · unfold AttentionCache.put
      rw [if_neg hcap]
    · constructor
      · simp only [keys_dictSet, hwf.1]
      · simp only [keys_dictSet]
        exact nodup_setKey hwf.2
    · exact dictGet?_dictSet_self _ _ _
    · intro k w hk hw
      rwa [dictGet?_dictSet_ne _ key k v hk] at hw

/- ### Orchestrator data model (attention_orchestrator.py) -/

/-- A `ChatMessage` of chat_client.py: role and content. -/
structure ChatMessage where
  role : String
  content : String
deriving Repr, DecidableEq

/-- An `AttentionResult`: content, confidence, processing time and method
tag.  The optional tensor of attention weights is always left at its
`None` default by the orchestrator and is omitted.  `confidence` and
`processing_time` (Python floats) are modelled as `ℚ`. -/
structure AttentionResult where
  content : String
  confidence : ℚ
  processing_time : ℚ
  method : String
deriving Repr, DecidableEq

/-- Environment oracle for one `process_messages` call: whether the body
of the local attention path and of the remote OpenAI call raise (and
with what message) or succeed, plus the wall-clock durations measured by
`time.perf_counter()`.  At most one local and one remote invocation can
happen per call, so one outcome each suffices. -/
structure Outcomes where
  localOutcome : Except String Unit
  remoteOutcome : Except String (String × Bool)
  tLocal : ℚ
  tRemote : ℚ
deriving Repr

/-- Path `_process_with_local_attention`: the whole body runs in a
`try`; on success it produces the fixed placeholder response with
confidence 0.85, on any exception a result with confidence 0.0 whose
content describes the error.  Either way the method tag is "local". -/
def processWithLocalAttention (outcome : Except String Unit) (t : ℚ) : AttentionResult :=
  match outcome with
  | .ok _ =>
      { content := "Local attention processing completed successfully."
        confidence := 0.85
        processing_time := t
        method := "local" }
  | .error e =>
      { content := "Local processing error: " ++ e
        confidence := 0.0
        processing_time := t
        method := "local" }

/-- Path `_process_with_openai`: `chat_completion` returns
`(response, success)`; confidence is 0.95 on success and 0.0 otherwise;
any exception becomes a result with confidence 0.0 whose content
describes the error.  Either way the method tag is "openai". -/
def processWithOpenAI (outcome : Except String (String × Bool)) (t : ℚ) : AttentionResult :=
  match outcome with
  | .ok (response, success) =>
      { content := response
        confidence := if success then 0.95 else 0.0
        processing_time := t
        method := "openai" }
  | .error e =>
      { content := "OpenAI processing error: " ++ e
        confidence := 0.0
        processing_time := t
        method := "openai" }

/-- Accumulator for `pySplit`: walk the characters, flushing the word
collected so far (in reverse) at each whitespace run. -/
def splitWsAux : List Char → List Char → List String
  | [], acc => if acc = [] then [] else [String.mk acc.reverse]
  | c :: cs, acc =>
    if c.isWhitespace then
      if acc = [] then splitWsAux cs []
      else String.mk acc.reverse :: splitWsAux cs []
    else splitWsAux cs (c :: acc)

/-- Python `str.split()` with no separator: split on whitespace runs,
dropping empty fragments. -/
def pySplit (s : String) : List String :=
  splitWsAux s.data []

/-- Python `sum(len(msg.content.split()) for msg in messages)`. -/
def totalTokens (messages : List ChatMessage) : Nat :=
  (messages.map fun m => (pySplit m.content).length).sum

/-- Predicate `_should_use_local_attention`: in hybrid mode, use the local model
exactly when the total whitespace word count is below 100; otherwise
the answer is just whether the configured mode is "local". -/
def shouldUseLocalAttention (mode : String) (messages : List ChatMessage) : Bool :=
  if mode = "hybrid" then totalTokens messages < 100
  else mode = "local"

/-- Function `_create_cache_key`: the MD5 hex digest of the space-joined message
contents. -/
def createCacheKey (messages : List ChatMessage) : String :=
  md5hex (String.intercalate " " (messages.map ChatMessage.content))

/-- The routing result together with which of the two paths were
invoked (call-count instrumentation in the sense of the testable
properties). -/
structure RouteOut where
  result : AttentionResult
  localCalled : Bool
  remoteCalled : Bool
deriving Repr

/-- The mode-dispatch block of `process_messages` (the code between the
cache lookup and the cache write): "openai" goes remote, "local" goes
local, anything else takes the hybrid branch, where a local attempt
whose confidence is below `HYBRID_MODE_THRESHOLD` triggers a remote
fallback and the higher-confidence result wins, the remote winner being
retagged "hybrid". -/
def routeMessages (mode : String) (hybridThreshold : ℚ) (oc : Outcomes)
    (messages : List ChatMessage) : RouteOut :=
  if mode = "openai" then
    { result := processWithOpenAI oc.remoteOutcome oc.tRemote
      localCalled := false, remoteCalled := true }
  else if mode = "local" then
    { result := processWithLocalAttention oc.localOutcome oc.tLocal
      localCalled := true, remoteCalled := false }
  else
    if shouldUseLocalAttention mode messages then
      let result := processWithLocalAttention oc.localOutcome oc.tLocal
      if result.confidence < hybridThreshold then
        let openai_result := processWithOpenAI oc.remoteOutcome oc.tRemote
        if openai_result.confidence > result.confidence then
          { result := { openai_result with method := "hybrid" }
            localCalled := true, remoteCalled := true }
        else
          { result := result, localCalled := true, remoteCalled := true }
      else
        { result := result, localCalled := true, remoteCalled := false }
    else
      { result := processWithOpenAI oc.remoteOutcome oc.tRemote
        localCalled := false, remoteCalled := true }

/-- One `process_messages` request: the configured mode and hybrid
threshold, the environment outcome oracle, the messages, the `use_cache`
argument and whether the global `attention_cache` exists
(`ATTENTION_CACHE_ENABLED`). -/
structure CallInput where
  mode : String
  hybrid_threshold : ℚ
  oc : Outcomes
  messages : List ChatMessage
  use_cache : Bool
  cache_enabled : Bool
deriving Repr

/-- The cache write at the orchestrator call site:
`attention_cache.put(cache_key, result)` with an `AttentionResult`
value.  `put` first runs its capacity check, evicting a minimal-count
entry at capacity exactly as `AttentionCache.put` does, and then
evaluates `value.clone()` — but the `AttentionResult` dataclass has no
`clone` attribute, so an `AttributeError` is raised before either dict
is written.  The returned pair is the cache state at the moment the
exception escapes together with the error message. -/
def putAttentionResult (c : AttentionCache AttentionResult) (key : String)
    (value : AttentionResult) :
    AttentionCache AttentionResult × String :=
  if c.max_size ≤ c.cache.length then
    match pyMinBy (c.access_count.map Prod.fst) (fun k => countOf c.access_count k) with
    | none => (c, "ValueError: min() arg is an empty sequence")
    | some lru =>
        ({ c with cache := dictDel c.cache lru,
                  access_count := dictDel c.access_count lru },
         "AttributeError: AttentionResult object has no attribute clone")
  else
    (c, "AttributeError: AttentionResult object has no attribute clone")

/-- Operation `process_messages`: check the cache (a hit is returned
immediately, bumping its access counter), otherwise route between the
local and remote paths, and cache the outcome under the recomputed key
when its confidence exceeds 0.5.  A `.error` is an uncaught Python
exception escaping to the caller; the cache write is the only sub-step
outside any `try`, and because `put` evaluates `clone()` on the
`AttentionResult` it always raises `AttributeError` when reached
(`putAttentionResult`), so a confident fresh result escapes as an
exception instead of being returned and cached. -/
def processMessages (inp : CallInput) (c : AttentionCache AttentionResult) :
    Except String (AttentionResult × AttentionCache AttentionResult) :=
  match (if inp.use_cache ∧ inp.cache_enabled
         then (c.get (createCacheKey inp.messages)).1 else none) with
  | some cached =>
      .ok (cached, (c.get (createCacheKey inp.messages)).2)
  | none =>
      let result := (routeMessages inp.mode inp.hybrid_threshold inp.oc inp.messages).result
      if inp.use_cache ∧ inp.cache_enabled ∧ result.confidence > 0.5 then
        .error (putAttentionResult c (createCacheKey inp.messages) result).2
      else
        .ok (result, c)

/-- The word-wise chunks yielded by `stream_process_messages` for a
content of a completed result: `words = content.split()`, the chunk at
index 0 is the word itself, later chunks are `" "` + word. -/
def streamChunks (content : String) : List String :=
  (pySplit content).enum.map fun iw => if iw.1 = 0 then iw.2 else " " ++ iw.2

/-- Operation `stream_process_messages`: run `process_messages` (with its
`use_cache` default True) and yield its content word by word; an escaped
exception is caught and yields a single `[Stream Error: ...]` chunk.
The inter-chunk `asyncio.sleep(0.05)` delay has no effect on the yielded
values and is abstracted away. -/
def streamProcessMessages (inp : CallInput) (c : AttentionCache AttentionResult) :
    List String × AttentionCache AttentionResult :=
  match processMessages inp c with
  | .ok (r, c') => (streamChunks r.content, c')
  | .error e => (["[Stream Error: " ++ e ++ "]"], c)

/-- The `MultiHeadAttention` construction data: the assert-checked shape
parameters (the four linear projections carry no invariant relevant
here and are omitted). -/
structure MultiHeadAttention where
  d_model : Nat
  num_heads : Nat
  d_k : Nat
deriving Repr, DecidableEq

/-- Constructor `MultiHeadAttention.__init__`: `assert d_model % num_heads == 0`
aborts construction with an `AssertionError` before any forward pass is
possible; otherwise each head gets `d_k = d_model // num_heads`. -/
def MultiHeadAttention.init (d_model num_heads : Nat) : Except String MultiHeadAttention :=
  if d_model % num_heads = 0 then
    .ok { d_model := d_model, num_heads := num_heads, d_k := d_model / num_heads }
  else
    .error "AssertionError: d_model must be divisible by num_heads"

/-- The global `attention_cache = AttentionCache()` built at import
time when `ATTENTION_CACHE_ENABLED`: empty, default capacity 1000. -/
def attention_cache : AttentionCache AttentionResult :=
  { cache := [], max_size := 1000, access_count := [] }

/-- State of the shared cache after one `process_messages` request,
whether it returns or raises.  The only raising step is the cache
write, so a raising call has performed exactly the capacity-eviction
prefix of the failing `put` — a no-op below capacity — before the
`AttributeError` escapes (`putAttentionResult`). -/
def cacheAfter (inp : CallInput) (c : AttentionCache AttentionResult) :
    AttentionCache AttentionResult :=
  match processMessages inp c with
  | .ok (_, c') => c'
  | .error _ =>
      (putAttentionResult c (createCacheKey inp.messages)
        (routeMessages inp.mode inp.hybrid_threshold inp.oc inp.messages).result).1

/-- A sequence of top-level `process_messages` requests threading the
shared global cache, raising calls included. -/
def runCalls : List CallInput → AttentionCache AttentionResult → AttentionCache AttentionResult
  | [], c => c
  | inp :: rest, c => runCalls rest (cacheAfter inp c)

/- ### Scaled dot-product attention, masking and softmax stage
(attention_layer.py ScaledDotProductAttention.forward).  The score
matrix stands for `QKᵀ/√d_k` (whose value is irrelevant once a position
is masked); `e` abstracts the real exponential inside `softmax`: the
only property used is strict positivity.  The dropout module is the
identity in evaluation mode (the orchestrator calls `.eval()`), so it
is omitted.  All functions are total: no input raises. -/

/-- Python `scores.masked_fill(mask == 0, -1e9)`. -/
def maskedScores {sq sk : Nat} (scores mask : Fin sq → Fin sk → ℚ) :
    Fin sq → Fin sk → ℚ :=
  fun i j => if mask i j = 0 then -1000000000 else scores i j

/-- Row-wise softmax with abstract exponential `e`. -/
def softmaxRow (e : ℚ → ℚ) {n : Nat} (v : Fin n → ℚ) : Fin n → ℚ :=
  fun j => e (v j) / Finset.univ.sum (fun k => e (v k))

/-- Python `F.softmax(scores.masked_fill(mask == 0, -1e9), dim=-1)`: the
attention weights returned by the kernel. -/
def attnWeights (e : ℚ → ℚ) {sq sk : Nat} (scores mask : Fin sq → Fin sk → ℚ) :
    Fin sq → Fin sk → ℚ :=
  fun i => softmaxRow e (fun k => maskedScores scores mask i k)

/-- The kernel output `torch.matmul(attention_weights, value)`. -/
def attnOutput (e : ℚ → ℚ) {sq sk dv : Nat} (scores mask : Fin sq → Fin sk → ℚ)
    (value : Fin sk → Fin dv → ℚ) : Fin sq → Fin dv → ℚ :=
  fun i d => Finset.univ.sum (fun k => attnWeights e scores mask i k * value k d)

/- ### C8 -/

/-- C8: constructing `MultiHeadAttention` with `d_model` not divisible
by `num_heads` raises an `AssertionError` at construction time, before
any forward computation exists; a successful construction keeps both
dimensions exactly as given, with `d_k * num_heads = d_model`, so the
ratio is never silently coerced. -/
theorem multiHeadAttention_init_guard (d_model num_heads : Nat) :
    (d_model % num_heads ≠ 0 →
      MultiHeadAttention.init d_model num_heads =
        .error "AssertionError: d_model must be divisible by num_heads") ∧
    (∀ m : MultiHeadAttention, MultiHeadAttention.init d_model num_heads = .ok m →
      m.d_model = d_model ∧ m.num_heads = num_heads ∧
        m.d_k = d_model / num_heads ∧ m.d_k * num_heads = d_model) := by
  constructor
  · intro h
    simp [MultiHeadAttention.init, h]
  · intro m hm
    by_cases h : d_model % num_heads = 0
    · simp only [MultiHeadAttention.init, if_pos h, Except.ok.injEq] at hm
      subst hm
      exact ⟨rfl, rfl, rfl, Nat.div_mul_cancel (Nat.dvd_of_mod_eq_zero h)⟩
    · simp [MultiHeadAttention.init, h] at hm

/-- C8 witness: a 10-dimensional model with 3 heads is rejected. -/
theorem multiHeadAttention_init_guard_witness :
    10 % 3 ≠ 0 ∧
      MultiHeadAttention.init 10 3 =
        .error "AssertionError: d_model must be divisible by num_heads" :=
  ⟨by decide, (multiHeadAttention_init_guard 10 3).1 (by decide)⟩

/- ### C9 -/

/-- C9: if every entry of query row `i` of the mask is 0, the kernel
does not raise: every score of that row is replaced by the same
constant -1e9, and after the row-wise softmax (dropout inactive in
evaluation mode) the weights of that row are the uniform distribution
`1 / sk` over the `sk` key positions. -/
theorem attention_fully_masked_row_uniform (e : ℚ → ℚ) (hpos : ∀ x, 0 < e x)
    {sq sk : Nat} (scores mask : Fin sq → Fin sk → ℚ) (i : Fin sq)
    (hmask : ∀ j, mask i j = 0) :
    (∀ j, maskedScores scores mask i j = -1000000000) ∧
    ∀ j : Fin sk, attnWeights e scores mask i j = 1 / (sk : ℚ) := by
  have hms : ∀ j, maskedScores scores mask i j = -1000000000 := fun j => by
    simp [maskedScores, hmask j]
  refine ⟨hms, ?_⟩
  intro j
  have hsum : (Finset.univ.sum fun k => e (maskedScores scores mask i k)) =
      (sk : ℚ) * e (-1000000000) := by
    rw [Finset.sum_congr rfl fun k _ => by rw [hms k]]
    rw [Finset.sum_const, Finset.card_univ, Fintype.card_fin, nsmul_eq_mul]
  have he : e (-1000000000) ≠ 0 := ne_of_gt (hpos _)
  simp only [attnWeights, softmaxRow]
  rw [hms j, hsum, mul_comm, ← div_div, div_self he]

/-- C9 witness: a 1×2 fully masked row yields weight 1/2 at each key
position. -/
theorem attention_fully_masked_row_uniform_witness :
    ((0 : ℚ) < 1) ∧
      attnWeights (fun _ => 1) (fun _ _ => 3) (fun _ _ => 0) (0 : Fin 1) (0 : Fin 2)
        = 1 / 2 := by
  refine ⟨by norm_num, ?_⟩
  have h := (attention_fully_masked_row_uniform (fun _ => 1) (fun _ => by norm_num)
    (fun _ _ => (3 : ℚ)) (fun _ _ => 0) (0 : Fin 1) (fun _ => rfl)).2 (0 : Fin 2)
  rw [h]
  norm_num

/- ### C6 -/

/-- C6 counterexample: the key hashes only the space-joined message
contents, so the one-message list with content "a b" and the
two-message list with contents "a", "b" differ in content yet produce
the identical cache key. -/
theorem createCacheKey_collision_counterexample :
    createCacheKey [{ role := "user", content := "a b" }] =
      createCacheKey [{ role := "user", content := "a" },
                      { role := "user", content := "b" }] ∧
    ([{ role := "user", content := "a b" }] : List ChatMessage) ≠
      [{ role := "user", content := "a" }, { role := "user", content := "b" }] ∧
    ([{ role := "user", content := "a b" }] : List ChatMessage).map ChatMessage.content ≠
      ([{ role := "user", content := "a" },
         { role := "user", content := "b" }] : List ChatMessage).map ChatMessage.content := by
  refine ⟨?_, by decide, by decide⟩
  show md5hex (String.intercalate " "
      (([{ role := "user", content := "a b" }] : List ChatMessage).map ChatMessage.content)) =
    md5hex (String.intercalate " "
      (([{ role := "user", content := "a" },
          { role := "user", content := "b" }] : List ChatMessage).map ChatMessage.content))
  exact congrArg md5hex (by decide)

/-- C6 as amended: the cache key is deterministic and depends exactly
on the space-joined concatenation of the message contents — identical
message sequences give identical keys, and any two lists whose joined
contents coincide (even if the lists themselves differ) share the same
key; content differences only yield different keys when they change the
joined string, and then only up to MD5 collision. -/
theorem createCacheKey_amended (l₁ l₂ : List ChatMessage)
    (h : String.intercalate " " (l₁.map ChatMessage.content) =
        String.intercalate " " (l₂.map ChatMessage.content)) :
    createCacheKey l₁ = createCacheKey l₂ := by
  unfold createCacheKey
  rw [h]

/-- C6 amended witness: two different message lists with the same joined
content get the same key. -/
theorem createCacheKey_amended_witness :
    String.intercalate " "
        (([{ role := "user", content := "hi there" }] : List ChatMessage).map
          ChatMessage.content) =
      String.intercalate " "
        (([{ role := "system", content := "hi" },
           { role := "user", content := "there" }] : List ChatMessage).map
          ChatMessage.content) ∧
    createCacheKey [{ role := "user", content := "hi there" }] =
      createCacheKey [{ role := "system", content := "hi" },
                      { role := "user", content := "there" }] :=
  ⟨by decide, createCacheKey_amended _ _ (by decide)⟩

/- ### C7 -/

theorem streamMap_enumFrom (rest : List String) : ∀ n : Nat, n ≠ 0 →
    (List.enumFrom n rest).map (fun iw => if iw.1 = 0 then iw.2 else " " ++ iw.2) =
      rest.map (fun w => " " ++ w) := by
  induction rest with
  | nil =>
    intro n _
    simp
  | cons w rest ih =>
    intro n hn
    simp only [List.enumFrom, List.map_cons]
    rw [if_neg hn, ih (n + 1) (Nat.succ_ne_zero n)]

theorem streamChunks_eq (content : String) (w : String) (rest : List String)
    (h : pySplit content = w :: rest) :
    streamChunks content = w :: rest.map (fun x => " " ++ x) := by
  unfold streamChunks
  rw [h, List.enum_cons]
  simp only [List.map_cons]
  rw [streamMap_enumFrom rest 1 one_ne_zero]
  simp

/-- C7: whenever `process_messages` completes with a result whose
content splits into the words `w :: rest`, the streaming variant yields
exactly one fragment per word, in order, and terminates: the first
fragment is the first word unchanged and every later fragment is a
single space followed by the corresponding word. -/
theorem streamProcessMessages_chunks (inp : CallInput)
    (c : AttentionCache AttentionResult) (r : AttentionResult)
    (c' : AttentionCache AttentionResult)
    (hrun : processMessages inp c = .ok (r, c'))
    (w : String) (rest : List String) (hw : pySplit r.content = w :: rest) :
    (streamProcessMessages inp c).1 = w :: rest.map (fun x => " " ++ x) ∧
    (streamProcessMessages inp c).1.length = (pySplit r.content).length := by
  have h1 : (streamProcessMessages inp c).1 = streamChunks r.content := by
    simp [streamProcessMessages, hrun]
  rw [h1, streamChunks_eq r.content w rest hw]
  refine ⟨rfl, ?_⟩
  simp [hw]

/-- Deterministic stub request of the testable-properties scenario: a
remote-only run whose stubbed completion is "a b c", no caching. -/
def c7Input : CallInput :=
  { mode := "openai"
    hybrid_threshold := 0.8
    oc := { localOutcome := .ok (), remoteOutcome := .ok ("a b c", true),
            tLocal := 0, tRemote := 0 }
    messages := [{ role := "user", content := "a b c" }]
    use_cache := false
    cache_enabled := true }

/-- C7 witness: with a deterministic stub producing "a b c" the stream
yields exactly "a", " b", " c" and stops. -/
theorem streamProcessMessages_chunks_witness :
    processMessages c7Input attention_cache =
      .ok ({ content := "a b c", confidence := 0.95, processing_time := 0,
             method := "openai" }, attention_cache) ∧
    pySplit "a b c" = "a" :: ["b", "c"] ∧
    (streamProcessMessages c7Input attention_cache).1 = ["a", " b", " c"] := by
  refine ⟨rfl, rfl, ?_⟩
  have h := (streamProcessMessages_chunks c7Input attention_cache
    { content := "a b c", confidence := 0.95, processing_time := 0, method := "openai" }
    attention_cache rfl "a" ["b", "c"] rfl).1
  rw [h]
  rfl

/- ### C5 -/

theorem routeMessages_hybrid_localCalled (threshold : ℚ) (oc : Outcomes)
    (messages : List ChatMessage) :
    (routeMessages "hybrid" threshold oc messages).localCalled =
      shouldUseLocalAttention "hybrid" messages := by
  have hmode1 : ("hybrid" : String) ≠ "openai" := by decide
  have hmode2 : ("hybrid" : String) ≠ "local" := by decide
  simp only [routeMessages, if_neg hmode1, if_neg hmode2]
  by_cases hs : shouldUseLocalAttention "hybrid" messages
  · simp only [hs, if_true]
    split
    · split
      · rfl
      · rfl
    · rfl
  · simp only [Bool.not_eq_true] at hs
    simp [hs]

/-- C5: in hybrid mode the local model path is attempted if and only if
the total whitespace-separated word count summed over all messages is
strictly below the threshold 100; a request at or above 100 goes
directly to the remote client, with no local attempt. -/
theorem hybrid_local_routing_iff (threshold : ℚ) (oc : Outcomes)
    (messages : List ChatMessage) :
    ((routeMessages "hybrid" threshold oc messages).localCalled = true ↔
      totalTokens messages < 100) ∧
    (100 ≤ totalTokens messages →
      routeMessages "hybrid" threshold oc messages =
        { result := processWithOpenAI oc.remoteOutcome oc.tRemote
          localCalled := false, remoteCalled := true }) := by
  have hmode1 : ("hybrid" : String) ≠ "openai" := by decide
  have hmode2 : ("hybrid" : String) ≠ "local" := by decide
  constructor
  · rw [routeMessages_hybrid_localCalled]
    simp [shouldUseLocalAttention]
  · intro hge
    have hs : shouldUseLocalAttention "hybrid" messages = false := by
      simp [shouldUseLocalAttention]
      omega
    simp [routeMessages, if_neg hmode1, if_neg hmode2, hs]

/-- A 100-word message content. -/
def manyWords : String := String.intercalate " " (List.replicate 100 "w")

set_option maxRecDepth 100000 in
/-- C5 witness: a 100-word request in hybrid mode goes straight to the
remote client. -/
theorem hybrid_local_routing_iff_witness :
    100 ≤ totalTokens [{ role := "user", content := manyWords }] ∧
      routeMessages "hybrid" 0.8
          { localOutcome := .ok (), remoteOutcome := .ok ("r", true),
            tLocal := 0, tRemote := 0 }
          [{ role := "user", content := manyWords }] =
        { result := processWithOpenAI (.ok ("r", true)) 0
          localCalled := false, remoteCalled := true } := by
  have h : 100 ≤ totalTokens [{ role := "user", content := manyWords }] := by decide
  exact ⟨h, (hybrid_local_routing_iff 0.8 _ _).2 h⟩

/- ### C4 -/

/-- C4: in hybrid mode, when the local path was taken (word count below
the threshold) and its confidence is strictly below the hybrid
threshold, the remote path is also invoked, and the returned result is
whichever of the two has the strictly higher confidence with the local
result kept on a tie; when the remote result wins it is returned with
its method retagged "hybrid". -/
theorem hybrid_fallback_higher_confidence (threshold : ℚ) (oc : Outcomes)
    (messages : List ChatMessage)
    (hloc : totalTokens messages < 100)
    (hconf : (processWithLocalAttention oc.localOutcome oc.tLocal).confidence < threshold) :
    (routeMessages "hybrid" threshold oc messages).localCalled = true ∧
    (routeMessages "hybrid" threshold oc messages).remoteCalled = true ∧
    ((processWithOpenAI oc.remoteOutcome oc.tRemote).confidence >
        (processWithLocalAttention oc.localOutcome oc.tLocal).confidence →
      (routeMessages "hybrid" threshold oc messages).result =
        { processWithOpenAI oc.remoteOutcome oc.tRemote with method := "hybrid" }) ∧
    ((processWithOpenAI oc.remoteOutcome oc.tRemote).confidence ≤
        (processWithLocalAttention oc.localOutcome oc.tLocal).confidence →
      (routeMessages "hybrid" threshold oc messages).result =
        processWithLocalAttention oc.localOutcome oc.tLocal) := by
  have hmode1 : ("hybrid" : String) ≠ "openai" := by decide
  have hmode2 : ("hybrid" : String) ≠ "local" := by decide
  have hs : shouldUseLocalAttention "hybrid" messages = true := by
    simp [shouldUseLocalAttention, hloc]
  simp only [routeMessages, if_neg hmode1, if_neg hmode2, hs, if_true, if_pos hconf]
  refine ⟨?_, ?_, ?_, ?_⟩
  · split
    · rfl
    · rfl
  · split
    · rfl
    · rfl
  · intro hgt
    rw [if_pos hgt]
  · intro hle
    rw [if_neg (not_lt.mpr hle)]

/-- Outcome oracle for the C4 witness: a healthy local model and a
successful remote completion. -/
def c4Oc : Outcomes :=
  { localOutcome := .ok (), remoteOutcome := .ok ("resp", true),
    tLocal := 0, tRemote := 0 }

/-- C4 witness: with threshold 0.9 the local confidence 0.85 triggers
the fallback, the remote confidence 0.95 wins, and the returned method
is "hybrid". -/
theorem hybrid_fallback_higher_confidence_witness :
    totalTokens [{ role := "user", content := "hello" }] < 100 ∧
    (processWithLocalAttention c4Oc.localOutcome c4Oc.tLocal).confidence < 0.9 ∧
    (routeMessages "hybrid" 0.9 c4Oc
        [{ role := "user", content := "hello" }]).result.method = "hybrid" := by
  have h1 : totalTokens [{ role := "user", content := "hello" }] < 100 := by decide
  have h2 : (processWithLocalAttention c4Oc.localOutcome c4Oc.tLocal).confidence < 0.9 := by
    norm_num [processWithLocalAttention, c4Oc]
  have h3 := (hybrid_fallback_higher_confidence 0.9 c4Oc
      [{ role := "user", content := "hello" }] h1 h2).2.2.1
    (by norm_num [processWithOpenAI, processWithLocalAttention, c4Oc])
  rw [h3]
  exact ⟨h1, h2, rfl⟩

/- ### C3 -/

/-- C3: on a well-formed cache holding exactly `max_size` (positive)
entries, `put key value` evicts exactly one existing entry — one whose
access count is minimal at that moment — before inserting the new entry
with its access counter reset to 1, so the cache never exceeds
`max_size` entries; and `get` on a hit returns the cached value,
increments the access counter of exactly that entry by exactly 1, and
changes nothing else (cache contents, capacity and the other counters
are untouched). -/
theorem attentionCache_put_evicts_min_and_get_increments {α : Type}
    (c : AttentionCache α) (key : String) (value : α)
    (hwf : c.WF) (hfull : c.cache.length = c.max_size) (hpos : 0 < c.max_size) :
    (∃ lru c', c.put key value = .ok c' ∧
      lru ∈ c.access_count.map Prod.fst ∧
      (∀ k ∈ c.access_count.map Prod.fst,
        countOf c.access_count lru ≤ countOf c.access_count k) ∧
      c'.cache = dictSet (dictDel c.cache lru) key value ∧
      c'.access_count = dictSet (dictDel c.access_count lru) key 1 ∧
      c'.max_size = c.max_size ∧
      dictGet? c'.cache key = some value ∧
      dictGet? c'.access_count key = some 1 ∧
      (∀ k, k ≠ key → k ≠ lru → dictGet? c'.cache k = dictGet? c.cache k) ∧
      (lru ≠ key → dictGet? c'.cache lru = none) ∧
      c'.cache.length ≤ c.max_size) ∧
    (∀ k v, dictGet? c.cache k = some v →
      c.get k = (some v,
        { c with access_count :=
            dictSet c.access_count k (countOf c.access_count k + 1) }) ∧
      dictGet? (dictSet c.access_count k (countOf c.access_count k + 1)) k =
        some (countOf c.access_count k + 1) ∧
      ∀ k', k' ≠ k →
        dictGet? (dictSet c.access_count k (countOf c.access_count k + 1)) k' =
          dictGet? c.access_count k') := by
  constructor
  · have hcap : c.max_size ≤ c.cache.length := le_of_eq hfull.symm
    have hne : c.cache ≠ [] := by
      intro he
      rw [he] at hfull
      simp at hfull
      omega
    have hkeys : c.access_count.map Prod.fst ≠ [] := by
      rw [← hwf.1]
      simpa using hne
    rcases pyMinBy_spec (fun k => countOf c.access_count k) _ hkeys with
      ⟨lru, hmin, hminle, pre, suf, hdec, _⟩
    have hmem : lru ∈ c.access_count.map Prod.fst := by
      rw [hdec]
      simp
    refine ⟨lru, { c with
        cache := dictSet (dictDel c.cache lru) key value,
        access_count := dictSet (dictDel c.access_count lru) key 1 },
      ?_, hmem, hminle, rfl, rfl, rfl, ?_, ?_, ?_, ?_, ?_⟩
    · unfold AttentionCache.put
      rw [if_pos hcap, hmin]
    · exact dictGet?_dictSet_self _ _ _
    · exact dictGet?_dictSet_self _ _ _
    · intro k hk hkl
      rw [dictGet?_dictSet_ne _ key k value hk, dictGet?_dictDel_ne _ lru k hkl]
    · intro hlk
      rw [dictGet?_dictSet_ne _ key lru value hlk, dictGet?_dictDel_self]
    · have h1 : (dictDel c.cache lru).length < c.cache.length :=
        length_dictDel_lt c.cache lru (hwf.1 ▸ hmem)
      have h2 : (dictSet (dictDel c.cache lru) key value).length ≤
          (dictDel c.cache lru).length + 1 := length_dictSet_le _ _ _
      simp only
      omega
  · intro k v hkv
    refine ⟨c.get_hit k v hkv, dictGet?_dictSet_self _ _ _, ?_⟩
    intro k' hk'
    exact dictGet?_dictSet_ne _ k k' _ hk'

/-- A full two-entry cache where "b" has the smaller access count. -/
def c3c : AttentionCache Nat :=
  { cache := [("a", 10), ("b", 20)], max_size := 2,
    access_count := [("a", 2), ("b", 1)] }

/-- C3 witness: putting a third key into the full `c3c` returns
normally, stores the new entry, and stays within capacity ("b", the
entry with the smaller count, is evicted). -/
theorem attentionCache_put_evicts_min_and_get_increments_witness :
    c3c.WF ∧ c3c.cache.length = c3c.max_size ∧ 0 < c3c.max_size ∧
    c3c.put "c" 30 = .ok { cache := [("a", 10), ("c", 30)], max_size := 2,
                           access_count := [("a", 2), ("c", 1)] } ∧
    (∃ lru c', c3c.put "c" 30 = .ok c' ∧
      dictGet? c'.cache "c" = some 30 ∧
      dictGet? c'.access_count "c" = some 1 ∧
      (lru ≠ "c" → dictGet? c'.cache lru = none) ∧
      c'.cache.length ≤ c3c.max_size) := by
  refine ⟨by decide, by decide, by decide, by rfl, ?_⟩
  obtain ⟨lru, c', h1, _, _, _, _, _, h7, h8, _, h10, h11⟩ :=
    (attentionCache_put_evicts_min_and_get_increments c3c "c" 30
      (by decide) (by decide) (by decide)).1
  exact ⟨lru, c', h1, h7, h8, h10, h11⟩

/- ### C10 -/

/-- C10: on a full well-formed cache, the entry evicted by `put` is the
first key in the insertion order of the access-count dict among those with
the minimal access count — Python `min` over the dict keys returns the
earliest-inserted of the tied minima. -/
theorem attentionCache_eviction_tie_break {α : Type}
    (c : AttentionCache α) (key : String) (value : α)
    (hwf : c.WF) (hfull : c.cache.length = c.max_size) (hpos : 0 < c.max_size) :
    ∃ e c' pre suf, c.put key value = .ok c' ∧
      c'.cache = dictSet (dictDel c.cache e) key value ∧
      c'.access_count = dictSet (dictDel c.access_count e) key 1 ∧
      c.access_count.map Prod.fst = pre ++ e :: suf ∧
      (∀ k ∈ c.access_count.map Prod.fst,
        countOf c.access_count e ≤ countOf c.access_count k) ∧
      (∀ x ∈ pre, countOf c.access_count e < countOf c.access_count x) := by
  have hcap : c.max_size ≤ c.cache.length := le_of_eq hfull.symm
  have hne : c.cache ≠ [] := by
    intro he
    rw [he] at hfull
    simp at hfull
    omega
  have hkeys : c.access_count.map Prod.fst ≠ [] := by
    rw [← hwf.1]
    simpa using hne
  rcases pyMinBy_spec (fun k => countOf c.access_count k) _ hkeys with
    ⟨e, hmin, hminle, pre, suf, hdec, hpre⟩
  refine ⟨e, { c with
      cache := dictSet (dictDel c.cache e) key value,
      access_count := dictSet (dictDel c.access_count e) key 1 },
    pre, suf, ?_, rfl, rfl, hdec, hminle, hpre⟩
  unfold AttentionCache.put
  rw [if_pos hcap, hmin]

/-- A full two-entry cache whose two access counts tie at 1; "a" was
inserted first. -/
def c10c : AttentionCache Nat :=
  { cache := [("a", 10), ("b", 20)], max_size := 2,
    access_count := [("a", 1), ("b", 1)] }

/-- C10 witness: with both counters tied, `put` evicts "a" — the key
inserted earliest — keeping "b". -/
theorem attentionCache_eviction_tie_break_witness :
    c10c.WF ∧ c10c.cache.length = c10c.max_size ∧ 0 < c10c.max_size ∧
    c10c.put "c" 30 = .ok { cache := [("b", 20), ("c", 30)], max_size := 2,
                            access_count := [("b", 1), ("c", 1)] } ∧
    (∃ e c' pre suf, c10c.put "c" 30 = .ok c' ∧
      c'.cache = dictSet (dictDel c10c.cache e) "c" 30 ∧
      c'.access_count = dictSet (dictDel c10c.access_count e) "c" 1 ∧
      c10c.access_count.map Prod.fst = pre ++ e :: suf ∧
      (∀ k ∈ c10c.access_count.map Prod.fst,
        countOf c10c.access_count e ≤ countOf c10c.access_count k) ∧
      (∀ x ∈ pre, countOf c10c.access_count e < countOf c10c.access_count x)) :=
  ⟨by decide, by decide, by decide, by rfl,
    attentionCache_eviction_tie_break c10c "c" 30 (by decide) (by decide) (by decide)⟩

/- ### processMessages reduction lemmas -/

theorem processMessages_hit (inp : CallInput) (c : AttentionCache AttentionResult)
    (r : AttentionResult)
    (hu : inp.use_cache = true) (he : inp.cache_enabled = true)
    (hget : dictGet? c.cache (createCacheKey inp.messages) = some r) :
    processMessages inp c = .ok (r,
      { c with access_count := (dictSet c.access_count (createCacheKey inp.messages) (countOf c.access_count (createCacheKey inp.messages) + 1)) }) := by
  unfold processMessages
  rw [if_pos ⟨hu, he⟩, AttentionCache.get_hit c _ r hget]

theorem processMessages_miss (inp : CallInput) (c : AttentionCache AttentionResult)
    (hmiss : (if inp.use_cache ∧ inp.cache_enabled
        then (c.get (createCacheKey inp.messages)).1 else none) = none) :
    processMessages inp c =
      (if inp.use_cache ∧ inp.cache_enabled ∧
          (routeMessages inp.mode inp.hybrid_threshold inp.oc inp.messages).result.confidence
            > 0.5
        then .error (putAttentionResult c (createCacheKey inp.messages)
            (routeMessages inp.mode inp.hybrid_threshold inp.oc inp.messages).result).2
        else .ok ((routeMessages inp.mode inp.hybrid_threshold inp.oc inp.messages).result,
          c)) := by
  unfold processMessages
  rw [hmiss]

/-- Either branch of a miss can be produced uniformly from the flags. -/
theorem processMessages_scrutinee_none (inp : CallInput)
    (c : AttentionCache AttentionResult)
    (hmissKey : inp.use_cache = true → inp.cache_enabled = true →
      dictGet? c.cache (createCacheKey inp.messages) = none) :
    (if inp.use_cache ∧ inp.cache_enabled
        then (c.get (createCacheKey inp.messages)).1 else none) = none := by
  by_cases hc : inp.use_cache ∧ inp.cache_enabled
  · rw [if_pos hc, AttentionCache.get_miss c _ (hmissKey hc.1 hc.2)]
  · rw [if_neg hc]

/- ### C1 -/

/-- When both collaborator paths fail, routing still returns a result:
its confidence is 0 and its content describes one of the two errors,
whatever the mode, threshold and messages. -/
theorem routeMessages_all_failed (mode : String) (threshold : ℚ) (oc : Outcomes)
    (messages : List ChatMessage) (el er : String)
    (hl : oc.localOutcome = .error el) (hr : oc.remoteOutcome = .error er) :
    (routeMessages mode threshold oc messages).result.confidence = 0 ∧
      ((routeMessages mode threshold oc messages).result.content =
          "Local processing error: " ++ el ∨
        (routeMessages mode threshold oc messages).result.content =
          "OpenAI processing error: " ++ er) := by
  have hL : processWithLocalAttention oc.localOutcome oc.tLocal =
      { content := "Local processing error: " ++ el, confidence := 0.0,
        processing_time := oc.tLocal, method := "local" } := by
    rw [hl]
    rfl
  have hO : processWithOpenAI oc.remoteOutcome oc.tRemote =
      { content := "OpenAI processing error: " ++ er, confidence := 0.0,
        processing_time := oc.tRemote, method := "openai" } := by
    rw [hr]
    rfl
  unfold routeMessages
  rw [hL, hO]
  split
  · exact ⟨by norm_num, Or.inr rfl⟩
  · split
    · exact ⟨by norm_num, Or.inl rfl⟩
    · split
      · dsimp only
        split
        · split
          · exact ⟨by norm_num, Or.inr rfl⟩
          · exact ⟨by norm_num, Or.inl rfl⟩
        · exact ⟨by norm_num, Or.inl rfl⟩
      · exact ⟨by norm_num, Or.inr rfl⟩
/-- The failing input for the never-raises claim: hybrid mode with its
default 0.8 threshold, one short message, a healthy local model, cache
enabled and `use_cache` at its default True.  The local path succeeds
with confidence 0.85, which exceeds both the hybrid threshold (no
fallback) and the 0.5 caching bar, so the cache write is reached. -/
def c1FailCall : CallInput :=
  { mode := "hybrid", hybrid_threshold := 0.8
    oc := { localOutcome := .ok (), remoteOutcome := .ok ("unused", true),
            tLocal := 0, tRemote := 0 }
    messages := [{ role := "user", content := "hello" }]
    use_cache := true, cache_enabled := true }

/-- On the failing input the routing block returns the successful local
result with confidence 0.85 and no remote fallback. -/
theorem routeMessages_c1FailCall :
    (routeMessages c1FailCall.mode c1FailCall.hybrid_threshold c1FailCall.oc
        c1FailCall.messages).result =
      { content := "Local attention processing completed successfully.",
        confidence := 0.85, processing_time := 0, method := "local" } := by
  have hL : processWithLocalAttention c1FailCall.oc.localOutcome c1FailCall.oc.tLocal =
      { content := "Local attention processing completed successfully.",
        confidence := 0.85, processing_time := 0, method := "local" } := rfl
  unfold routeMessages
  rw [if_neg (by decide : ¬ (c1FailCall.mode = "openai")),
    if_neg (by decide : ¬ (c1FailCall.mode = "local")),
    if_pos (by decide :
      shouldUseLocalAttention c1FailCall.mode c1FailCall.messages = true)]
  dsimp only
  rw [hL, if_neg (by norm_num [c1FailCall] :
    ¬ (({ content := "Local attention processing completed successfully.",
          confidence := 0.85, processing_time := 0,
          method := "local" } : AttentionResult).confidence
        < c1FailCall.hybrid_threshold))]

/-- On the fresh global cache the failing input raises: the confident
result reaches the cache write and `put` evaluates `clone()` on the
`AttentionResult`, which has no such attribute. -/
theorem processMessages_c1FailCall_raises :
    processMessages c1FailCall attention_cache =
      .error "AttributeError: AttentionResult object has no attribute clone" := by
  have hmiss : (if c1FailCall.use_cache ∧ c1FailCall.cache_enabled
      then (attention_cache.get (createCacheKey c1FailCall.messages)).1 else none)
        = none := by
    rw [if_pos ⟨rfl, rfl⟩]
    rfl
  rw [processMessages_miss c1FailCall attention_cache hmiss, routeMessages_c1FailCall]
  rw [if_pos ⟨rfl, rfl, by norm_num⟩]
  rfl

/-- C1 (code bug): the claim promises that `process_messages` never
raises and always hands the caller a well-formed result, but on the
fresh global cache a routine successful hybrid request — healthy local
model, one-word message, default flags — computes a well-formed result
of confidence 0.85 and then raises `AttributeError` out of
`process_messages`: the cache write sits outside every `try` and
`put` calls `clone()` on the `AttentionResult` dataclass, which has no
such method.  The exceptions inside the local and remote paths are
indeed caught (see `routeMessages_all_failed`); the uncaught exception
is the write of the successful result. -/
theorem processMessages_raises_on_cacheable_success :
    processMessages c1FailCall attention_cache =
      .error "AttributeError: AttentionResult object has no attribute clone" ∧
    (routeMessages c1FailCall.mode c1FailCall.hybrid_threshold c1FailCall.oc
        c1FailCall.messages).result.confidence = 0.85 ∧
    (0.5 : ℚ) < (routeMessages c1FailCall.mode c1FailCall.hybrid_threshold c1FailCall.oc
        c1FailCall.messages).result.confidence := by
  refine ⟨processMessages_c1FailCall_raises, ?_, ?_⟩
  · rw [routeMessages_c1FailCall]
  · rw [routeMessages_c1FailCall]
    norm_num

/- ### C2 -/

theorem cacheAfter_of_empty (inp : CallInput) (c : AttentionCache AttentionResult)
    (h : c.cache = []) (hm : 0 < c.max_size) : cacheAfter inp c = c := by
  have hmiss : (if inp.use_cache ∧ inp.cache_enabled
      then (c.get (createCacheKey inp.messages)).1 else none) = none := by
    by_cases hc : inp.use_cache ∧ inp.cache_enabled
    · rw [if_pos hc, AttentionCache.get_miss c _ (by rw [h]; rfl)]
    · rw [if_neg hc]
  have hput : ∀ v, (putAttentionResult c (createCacheKey inp.messages) v).1 = c := by
    intro v
    unfold putAttentionResult
    rw [if_neg (by rw [h]; simpa using Nat.pos_iff_ne_zero.mp hm)]
  unfold cacheAfter
  rw [processMessages_miss inp c hmiss]
  by_cases hg : inp.use_cache ∧ inp.cache_enabled ∧
      (routeMessages inp.mode inp.hybrid_threshold inp.oc inp.messages).result.confidence
        > 0.5
  · rw [if_pos hg]
    exact hput _
  · rw [if_neg hg]

theorem runCalls_fixed (calls : List CallInput) :
    ∀ c : AttentionCache AttentionResult, c.cache = [] → 0 < c.max_size →
      runCalls calls c = c := by
  induction calls with
  | nil =>
    intro c h hm
    rfl
  | cons inp rest ih =>
    intro c h hm
    unfold runCalls
    rw [cacheAfter_of_empty inp c h hm]
    exact ih c h hm

/-- C2 (code bug): the > 0.5 guard on the write exists exactly as the
claim says, but the write itself never completes — `put` raises
`AttributeError` before storing — so starting from the fresh global
cache no sequence of `process_messages` requests ever populates the
entry dict at all: every reachable cache state is empty, no cached
result of any confidence is ever retrievable, and the intended caching
of confident results (and with it any cache hit) never happens; the
confident request instead raises. -/
theorem cache_never_populated (calls : List CallInput) :
    runCalls calls attention_cache = attention_cache ∧
    (runCalls calls attention_cache).cache = [] ∧
    (∀ k r, dictGet? (runCalls calls attention_cache).cache k ≠ some r) ∧
    processMessages c1FailCall (runCalls calls attention_cache) =
      .error "AttributeError: AttentionResult object has no attribute clone" := by
  have h := runCalls_fixed calls attention_cache rfl (by decide)
  refine ⟨h, by rw [h]; rfl, ?_, by rw [h]; exact processMessages_c1FailCall_raises⟩
  intro k r hk
  rw [h] at hk
  simp [attention_cache, dictGet?] at hk
